import Mathlib

/-!
Verification of the "scoped resource + fluent mutation" components of the
Play_cpp repository, together with the `BankAccount`, `Student` and
static-counter classes of `03_classes_basics`.

The `ScopedResource` component generalizes `DynamicArray`
(`04_constructors_destructors/example.cpp`): the zero-initializing
constructor, the deep-copying copy constructor and the element accessors
come from that source file; the `isValid` flag, the explicit `release()`
operation, the bounds checks and the error taxonomy exist only in the
specification (the C++ file uses RAII and an unchecked `operator[]`), so
those parts are modelled from the spec and marked as such.

Machine arithmetic: the C++ code uses `double` for money amounts, grades
averages and prices; every concrete value exercised by the spec (1.50,
0.75, 1.25, ...) is an exactly representable dyadic rational on which
`double` arithmetic is exact, so amounts are embedded as `ℚ`.  Element
values of `DynamicArray` are C++ `int`; no claim exercises overflow, and
they are embedded as `Int`.
-/

namespace PlayCpp

/-- Error taxonomy of the specification (§7). -/
inductive RError where
  | allocationError
  | invalidStateError
  | indexOutOfRangeError
deriving DecidableEq, Repr

/-- The heap of backing arrays.  An address is an index into the list;
`none` marks storage that has been freed by `release`. -/
abbrev Store := List (Option (List Int))

/-- A `ScopedResource` handle: the address of its backing storage in the
`Store`, its fixed capacity, and the validity flag.  `addr`, `capacity`
come from `DynamicArray` (`data` pointer and `size`); `isValid` is
modelled from the spec (§3), the C++ class having no such flag. -/
structure ScopedResource where
  addr : Nat
  capacity : Nat
  isValid : Bool
deriving DecidableEq, Repr

/-- `DynamicArray::DynamicArray(size_t n)`: allocates fresh backing
storage of `n` elements and zero-initializes every element
(`example.cpp` lines 44-49).  The fresh address is the next free slot of
the store; `isValid := true` is modelled from the spec (§4.1). -/
def create (c : Nat) (st : Store) : ScopedResource × Store :=
  (⟨st.length, c, true⟩, st ++ [some (List.replicate c 0)])

/-- `elementAt`.  The in-bounds read is `DynamicArray::operator[]`
(`example.cpp` line 63, a plain `data[index]`); the validity check and
the bounds check are modelled from the spec (§4.1): after `release()`
every access fails with `InvalidStateError`, and `index ≥ capacity`
fails with `IndexOutOfRangeError`. -/
def elementAt (r : ScopedResource) (i : Nat) (st : Store) : Except RError Int :=
  if r.isValid = false then .error .invalidStateError
  else if r.capacity ≤ i then .error .indexOutOfRangeError
  else match st.getD r.addr none with
       | some l => .ok (l.getD i 0)
       | none => .error .invalidStateError

/-- `setElementAt`.  The in-bounds write is `DynamicArray::operator[]`
(`example.cpp` line 63, used as an lvalue); validity and bounds checks
are modelled from the spec (§4.1) exactly as in `elementAt`. -/
def setElementAt (r : ScopedResource) (i : Nat) (v : Int) (st : Store) :
    Except RError Store :=
  if r.isValid = false then .error .invalidStateError
  else if r.capacity ≤ i then .error .indexOutOfRangeError
  else match st.getD r.addr none with
       | some l => .ok (st.set r.addr (some (l.set i v)))
       | none => .error .invalidStateError

/-- `duplicate`, i.e. `DynamicArray::DynamicArray(const DynamicArray&)`
(`example.cpp` lines 58-61): allocates fresh storage of the same size at
a new address and copies the source contents element-wise.  The
`InvalidStateError` on an invalid source is modelled from the spec
(§4.1). -/
def duplicate (r : ScopedResource) (st : Store) :
    Except RError (ScopedResource × Store) :=
  if r.isValid = false then .error .invalidStateError
  else match st.getD r.addr none with
       | some l => .ok (⟨st.length, r.capacity, true⟩, st ++ [some l])
       | none => .error .invalidStateError

/-- Modelled from the spec: `release()` (§4.1) does not exist in
`DynamicArray`, whose destructor (`example.cpp` lines 52-55) frees the
storage exactly once; the spec turns it into an explicit idempotent
operation guarded by `isValid`. -/
def release (r : ScopedResource) (st : Store) : ScopedResource × Store :=
  if r.isValid then ({ r with isValid := false }, st.set r.addr none)
  else (r, st)

/-- Well-formedness of a handle against a store: the address is
allocated, and a valid handle points at live storage whose length equals
the capacity. -/
def WF (r : ScopedResource) (st : Store) : Prop :=
  r.addr < st.length ∧
  (r.isValid = true → (st.getD r.addr none).map List.length = some r.capacity)

instance (r : ScopedResource) (st : Store) : Decidable (WF r st) := by
  unfold WF; infer_instance

lemma getD_append_length (st : Store) (x : Option (List Int)) :
    (st ++ [x]).getD st.length none = x := by
  simp [List.getD]

lemma getD_append_lt (st : Store) (x : Option (List Int)) (a : Nat)
    (h : a < st.length) : (st ++ [x]).getD a none = st.getD a none := by
  simp [List.getD, List.getElem?_append_left h]

/-- C4: immediately after `create c` succeeds the instance is valid and
`elementAt i` returns `0` for every `i < c`. -/
theorem create_valid_and_zero (c : Nat) (st : Store) (i : Nat) (hi : i < c) :
    (create c st).1.isValid = true ∧
    elementAt (create c st).1 i (create c st).2 = .ok 0 := by
  refine ⟨rfl, ?_⟩
  unfold create elementAt
  simp only [Nat.not_le.mpr hi, if_false, if_neg]
  rw [getD_append_length]
  simp [List.getD, List.getElem?_replicate, hi]

/-- C4 witness: `create 3` on the empty store, element 1. -/
theorem create_valid_and_zero_witness :
    1 < 3 ∧
    ((create 3 []).1.isValid = true ∧
     elementAt (create 3 []).1 1 (create 3 []).2 = .ok 0) :=
  ⟨by decide, create_valid_and_zero 3 [] 1 (by decide)⟩

/-- C1: `release` invalidates the handle; afterwards `elementAt`,
`setElementAt` and `duplicate` all fail with `InvalidStateError`, and a
second `release` does not fail and changes nothing (in particular it
does not free the backing storage a second time). -/
theorem release_idempotent_and_invalidates (r : ScopedResource) (st : Store)
    (i : Nat) (v : Int) :
    (release r st).1.isValid = false ∧
    release (release r st).1 (release r st).2 = release r st ∧
    elementAt (release r st).1 i (release r st).2 = .error .invalidStateError ∧
    setElementAt (release r st).1 i v (release r st).2 = .error .invalidStateError ∧
    duplicate (release r st).1 (release r st).2 = .error .invalidStateError := by
  cases h : r.isValid <;>
    simp [release, h, elementAt, setElementAt, duplicate]

lemma getD_set_self (st : Store) (a : Nat) (x : Option (List Int))
    (h : a < st.length) : (st.set a x).getD a none = x := by
  simp [List.getD, List.getElem?_set_eq h]

lemma getD_set_ne (st : Store) (a b : Nat) (x : Option (List Int))
    (h : a ≠ b) : (st.set a x).getD b none = st.getD b none := by
  simp [List.getD, List.getElem?_set_ne h]

/-- C2: on a valid resource, `elementAt`/`setElementAt` fail with
`IndexOutOfRangeError` for every index `≥ capacity`; for every in-bounds
index they perform only a pure read, or a pure write of that single
element, with no other side effect (every other element, every other
array and the store size are unchanged). -/
theorem elementAt_setElementAt_bounds (r : ScopedResource) (st : Store)
    (i : Nat) (v : Int) (hv : r.isValid = true) (hwf : WF r st) :
    (r.capacity ≤ i →
      elementAt r i st = .error .indexOutOfRangeError ∧
      setElementAt r i v st = .error .indexOutOfRangeError) ∧
    (i < r.capacity →
      (∃ x, elementAt r i st = .ok x) ∧
      (∃ st2, setElementAt r i v st = .ok st2 ∧
        elementAt r i st2 = .ok v ∧
        (∀ j, j ≠ i → elementAt r j st2 = elementAt r j st) ∧
        (∀ a, a ≠ r.addr → st2.getD a none = st.getD a none) ∧
        st2.length = st.length)) := by
  obtain ⟨haddr, hlive⟩ := hwf
  have hmap := hlive hv
  cases hst : st.getD r.addr none with
  | none => rw [hst] at hmap; simp at hmap
  | some l =>
    rw [hst] at hmap
    simp only [Option.map] at hmap
    injection hmap with hmap
    have hfind : st[r.addr]? = some (some l) := by
      have h2 : st[r.addr]?.getD none = some l := by
        simpa [List.getD, List.get?_eq_getElem?] using hst
      cases h : st[r.addr]? with
      | none => rw [h] at h2; simp at h2
      | some o => rw [h] at h2; simp only [Option.getD] at h2; rw [h2]
    constructor
    · intro hle
      simp [elementAt, setElementAt, hv, hle]
    · intro hlt
      have hgt : ¬ r.capacity ≤ i := Nat.not_le.mpr hlt
      have hil : i < l.length := by omega
      have hsetfind :
          (st.set r.addr (some (l.set i v)))[r.addr]? = some (some (l.set i v)) := by
        rw [List.getElem?_set_eq]; exact haddr
      refine ⟨⟨l.getD i 0, by simp [elementAt, hv, hgt, List.getD, hfind]⟩, ?_⟩
      refine ⟨st.set r.addr (some (l.set i v)),
        by simp [setElementAt, hv, hgt, List.getD, hfind], ?_, ?_, ?_, ?_⟩
      · simp [elementAt, hv, hgt, List.getD, hsetfind, List.getElem?_set_eq hil]
      · intro j hj
        by_cases hjc : r.capacity ≤ j
        · simp [elementAt, hv, hjc]
        · simp [elementAt, hv, hjc, List.getD, hsetfind, hfind,
            List.getElem?_set_ne (fun h => hj h.symm)]
      · intro a ha
        exact getD_set_ne st r.addr a _ (fun h => ha h.symm)
      · exact st.length_set r.addr _

/-- C2 witness: a valid well-formed resource of capacity 3 over the
store `[some [5, 6, 7]]`, read/write at index 1. -/
theorem elementAt_setElementAt_bounds_witness :
    ((⟨0, 3, true⟩ : ScopedResource).isValid = true ∧
     WF ⟨0, 3, true⟩ [some [5, 6, 7]]) ∧
    ((3 ≤ 1 →
      elementAt ⟨0, 3, true⟩ 1 [some [5, 6, 7]] = .error .indexOutOfRangeError ∧
      setElementAt ⟨0, 3, true⟩ 1 9 [some [5, 6, 7]] = .error .indexOutOfRangeError) ∧
    (1 < 3 →
      (∃ x, elementAt ⟨0, 3, true⟩ 1 [some [5, 6, 7]] = .ok x) ∧
      (∃ st2, setElementAt ⟨0, 3, true⟩ 1 9 [some [5, 6, 7]] = .ok st2 ∧
        elementAt ⟨0, 3, true⟩ 1 st2 = .ok 9 ∧
        (∀ j, j ≠ 1 → elementAt ⟨0, 3, true⟩ j st2 = elementAt ⟨0, 3, true⟩ j [some [5, 6, 7]]) ∧
        (∀ a, a ≠ 0 → st2.getD a none = List.getD [some [5, 6, 7]] a none) ∧
        st2.length = List.length [some [5, 6, 7]]))) :=
  ⟨⟨rfl, by decide⟩,
   elementAt_setElementAt_bounds ⟨0, 3, true⟩ [some [5, 6, 7]] 1 9 rfl (by decide)⟩

lemma getD_eq_find (st : Store) (a : Nat) : st.getD a none = st[a]?.getD none := by
  simp [List.getD, List.get?_eq_getElem?]

lemma find_append_length (st : Store) (x : Option (List Int)) :
    (st ++ [x])[st.length]? = some x := by
  rw [List.getElem?_append_right (le_refl _)]
  simp

lemma find_append_lt (st : Store) (x : Option (List Int)) (a : Nat)
    (h : a < st.length) : (st ++ [x])[a]? = st[a]? :=
  List.getElem?_append_left h

/-- Helper: `elementAt` only looks at the resource's own backing slot,
so two stores agreeing there give identical reads. -/
lemma elementAt_congr (r : ScopedResource) (st st' : Store)
    (h : st[r.addr]? = st'[r.addr]?) (j : Nat) :
    elementAt r j st = elementAt r j st' := by
  unfold elementAt
  rw [getD_eq_find, getD_eq_find, h]

/-- Concrete C3 scenario: `create 3`, set elements to `[10, 20, 30]`,
duplicate, set the duplicate's element 0 to 99, then read element 0 of
the original and of the duplicate (`example.cpp` lines 114-124 run the
same experiment with capacity 5). -/
def scenarioC3 : Except RError (Int × Int) :=
  let p := create 3 []
  do
    let st1 ← setElementAt p.1 0 10 p.2
    let st2 ← setElementAt p.1 1 20 st1
    let st3 ← setElementAt p.1 2 30 st2
    let q ← duplicate p.1 st3
    let st5 ← setElementAt q.1 0 99 q.2
    let a ← elementAt p.1 0 st5
    let b ← elementAt q.1 0 st5
    return (a, b)

/-- C3: duplicating a valid resource yields a fresh valid instance of
the same capacity with element-wise equal contents at a different
address, and the two share no storage: any successful write through one
leaves every read of the other unchanged.  In particular the concrete
scenario of the claim ends with the original's element 0 still 10 and
the duplicate's 99. -/
theorem duplicate_deep_copy (r : ScopedResource) (st : Store)
    (hv : r.isValid = true) (hwf : WF r st) :
    (∃ d st2, duplicate r st = .ok (d, st2) ∧
      d.capacity = r.capacity ∧ d.isValid = true ∧ d.addr ≠ r.addr ∧
      (∀ i, elementAt d i st2 = elementAt r i st) ∧
      (∀ i v st3, setElementAt d i v st2 = .ok st3 →
        ∀ j, elementAt r j st3 = elementAt r j st) ∧
      (∀ i v st3, setElementAt r i v st2 = .ok st3 →
        ∀ j, elementAt d j st3 = elementAt d j st2)) ∧
    scenarioC3 = .ok (10, 99) := by
  refine ⟨?_, rfl⟩
  obtain ⟨haddr, hlive⟩ := hwf
  have hmap := hlive hv
  cases hst : st.getD r.addr none with
  | none => rw [hst] at hmap; simp at hmap
  | some l =>
    have hfind : st[r.addr]? = some (some l) := by
      have h2 : st[r.addr]?.getD none = some l := by rw [← getD_eq_find]; exact hst
      cases h : st[r.addr]? with
      | none => rw [h] at h2; simp at h2
      | some o => rw [h] at h2; simp only [Option.getD] at h2; rw [h2]
    refine ⟨⟨st.length, r.capacity, true⟩, st ++ [some l], ?_, rfl, rfl, ?_, ?_, ?_, ?_⟩
    · simp [duplicate, hv, getD_eq_find, hfind]
    · exact fun h => absurd (h ▸ haddr) (lt_irrefl _)
    · intro i
      have hd : (st ++ [some l])[st.length]? = some (some l) := find_append_length st _
      simp [elementAt, hv, getD_eq_find, hd, hfind]
    · intro i v st3 hset
      have hd : (st ++ [some l])[st.length]? = some (some l) := find_append_length st _
      by_cases hic : r.capacity ≤ i
      · simp [setElementAt, hic] at hset
      · simp [setElementAt, hic, getD_eq_find, hd] at hset
        refine fun j => elementAt_congr r st3 st ?_ j
        rw [← hset]
        exact find_append_lt st _ _ haddr
    · intro i v st3 hset
      have hr2 : (st ++ [some l])[r.addr]? = some (some l) := by
        rw [find_append_lt st _ _ haddr]; exact hfind
      by_cases hic : r.capacity ≤ i
      · simp [setElementAt, hv, hic] at hset
      · simp [setElementAt, hv, hic, getD_eq_find, hr2] at hset
        refine fun j => elementAt_congr _ st3 (st ++ [some l]) ?_ j
        rw [← hset]
        exact List.getElem?_set_ne (by omega : r.addr ≠ st.length)

/-- C3 witness: the concrete scenario, obtained by applying the theorem
to `⟨0, 3, true⟩` over the store `[some [10, 20, 30]]`. -/
theorem duplicate_deep_copy_witness : scenarioC3 = .ok (10, 99) :=
  (duplicate_deep_copy ⟨0, 3, true⟩ [some [10, 20, 30]] rfl (by decide)).2

/-- `struct Item` of `03_classes_basics/solution.cpp` (lines 87-90): a
named, priced entry.  The C++ `double` price is embedded as `ℚ`. -/
structure Item where
  name : String
  price : ℚ
deriving DecidableEq, Repr

/-- `class ShoppingCart` (`solution.cpp` lines 92-126), the source of
the spec's `FluentAccumulator`: a vector of items. -/
structure ShoppingCart where
  items : List Item
deriving DecidableEq, Repr

/-- `ShoppingCart::addItem` (`solution.cpp` lines 97-100): pushes the
item at the back and returns `*this`; in the embedding the returned
"self" is the updated state. -/
def addItem (c : ShoppingCart) (n : String) (p : ℚ) : ShoppingCart :=
  ⟨c.items ++ [⟨n, p⟩]⟩

/-- `ShoppingCart::removeItem` (`solution.cpp` lines 102-109): the
erase-remove idiom deletes every item whose name equals the argument
and keeps the rest in order, i.e. a filter. -/
def removeItem (c : ShoppingCart) (n : String) : ShoppingCart :=
  ⟨c.items.filter (fun it => it.name != n)⟩

/-- `ShoppingCart::getTotal` (`solution.cpp` lines 111-117): folds
`total += item.price` over the items starting from `0.0`. -/
def getTotal (c : ShoppingCart) : ℚ :=
  c.items.foldl (fun acc it => acc + it.price) 0

/-- Modelled from the spec: `snapshotEntries` (§4.2) has no direct
counterpart in `ShoppingCart` — the closest is `printItems`, which
iterates the live vector read-only — so it is taken from the spec's
words: a read-only ordered copy of the current entries. -/
def snapshotEntries (c : ShoppingCart) : List Item := c.items

lemma foldl_add_price (l : List Item) (a : ℚ) :
    l.foldl (fun acc it => acc + it.price) a = a + (l.map Item.price).sum := by
  induction l generalizing a with
  | nil => simp
  | cons x xs ih => simp [ih, add_assoc]

/-- C5: `getTotal` returns the sum of the amounts of the entries
currently present and `0` on the empty accumulator.  It is a plain
function of the state (the C++ method is `const`), so calling it leaves
the entry sequence unchanged by construction. -/
theorem getTotal_is_sum (c : ShoppingCart) :
    getTotal c = (c.items.map Item.price).sum ∧ getTotal ⟨[]⟩ = 0 :=
  ⟨by simp [getTotal, foldl_add_price], rfl⟩

/-- C6: `removeItem` removes exactly the entries whose label matches
(case-sensitively), keeps the remaining entries in their relative order
(the result is a sublist with the per-item counts of all non-matching
items preserved), is a no-op rather than a failure when nothing
matches, and the Apple/Banana/Orange scenario of the claim computes as
stated. -/
theorem removeItem_spec (c : ShoppingCart) (n : String) :
    List.Sublist (removeItem c n).items c.items ∧
    (∀ it, (removeItem c n).items.count it =
      if it.name = n then 0 else c.items.count it) ∧
    ((∀ it ∈ c.items, it.name ≠ n) → removeItem c n = c) ∧
    (getTotal (addItem (addItem (addItem ⟨[]⟩ "Apple" 1.5) "Banana" 0.75)
        "Orange" 1.25) = 3.5 ∧
     getTotal (removeItem (addItem (addItem (addItem ⟨[]⟩ "Apple" 1.5)
        "Banana" 0.75) "Orange" 1.25) "Banana") = 2.75 ∧
     snapshotEntries (removeItem (addItem (addItem (addItem ⟨[]⟩ "Apple" 1.5)
        "Banana" 0.75) "Orange" 1.25) "Banana") =
       [⟨"Apple", 1.5⟩, ⟨"Orange", 1.25⟩]) := by
  refine ⟨List.filter_sublist _, ?_, ?_, ?_, ?_, by rfl⟩
  · intro it
    by_cases h : it.name = n
    · rw [if_pos h]
      refine List.count_eq_zero.mpr (fun hmem => ?_)
      have := List.of_mem_filter hmem
      simp [h] at this
    · rw [if_neg h]
      exact List.count_filter (by simp [h])
  · intro hall
    have : c.items.filter (fun it => it.name != n) = c.items :=
      List.filter_eq_self.mpr (fun it hmem => by simp [hall it hmem])
    cases c
    simp only [removeItem] at *
    rw [this]
  · simp [getTotal, addItem]; norm_num
  · have h : removeItem (addItem (addItem (addItem ⟨[]⟩ "Apple" 1.5)
        "Banana" 0.75) "Orange" 1.25) "Banana" =
        (⟨[⟨"Apple", 1.5⟩, ⟨"Orange", 1.25⟩]⟩ : ShoppingCart) := rfl
    rw [h]
    simp [getTotal]
    norm_num

/-- C6 witness: the no-op case at a concrete cart with no matching
entry, extracted from the theorem applied at that cart. -/
theorem removeItem_spec_witness :
    removeItem ⟨[⟨"Apple", 1.5⟩]⟩ "Banana" = ⟨[⟨"Apple", 1.5⟩]⟩ :=
  (removeItem_spec ⟨[⟨"Apple", 1.5⟩]⟩ "Banana").2.2.1
    (by intro it hmem; simp at hmem; simp [hmem])

/-- C7: `addItem` never fails, appends its pair at the end, and
chaining through the returned self is the same as two separate
mutating statements: both leave the two entries present in call
order. -/
theorem addItem_chain (a : ShoppingCart) (l1 l2 : String) (x1 x2 : ℚ) :
    (addItem a l1 x1).items = a.items ++ [⟨l1, x1⟩] ∧
    addItem (addItem a l1 x1) l2 x2 =
      (let b := addItem a l1 x1
       let b2 := addItem b l2 x2
       b2) ∧
    (addItem (addItem a l1 x1) l2 x2).items =
      a.items ++ [⟨l1, x1⟩, ⟨l2, x2⟩] := by
  refine ⟨rfl, rfl, ?_⟩
  simp [addItem]

/-- `IDGenerator::IDGenerator()` (`example.cpp` lines 96-98) and
`GlobalCounter::GlobalCounter()` (`solution.cpp` lines 71-73): the new
instance stores the current value of the process-wide counter and the
counter is incremented by one (`myID = nextID++`). -/
def constructOne (counter : Nat) : Nat × Nat := (counter, counter + 1)

/-- Runs `n` consecutive constructions starting from a given counter
value, collecting the identifiers handed out. -/
def constructMany : Nat → Nat → List Nat × Nat
  | 0, counter => ([], counter)
  | n + 1, counter =>
    let p := constructOne counter
    let q := constructMany n p.2
    (p.1 :: q.1, q.2)

/-- C8: starting from the fixed initial value (`0` for
`GlobalCounter::totalCount`, `1` for `IDGenerator::nextID`), after `n`
constructions the counter equals the initial value plus `n`, and the
`n` instances received the distinct consecutive identifiers
`init, init + 1, ..., init + n - 1`. -/
lemma constructMany_ids (init n : Nat) :
    (constructMany n init).1 = List.range' init n := by
  induction n generalizing init with
  | zero => simp [constructMany]
  | succ m ih => simp [constructMany, constructOne, ih (init + 1), List.range']

theorem counter_consecutive_ids (init n : Nat) :
    (constructMany n init).2 = init + n ∧
    (constructMany n init).1 = List.range' init n ∧
    ((constructMany n init).1).Nodup := by
  refine ⟨?_, constructMany_ids init n, ?_⟩
  · induction n generalizing init with
    | zero => simp [constructMany]
    | succ m ih => simp [constructMany, constructOne, ih (init + 1)]; omega
  · rw [constructMany_ids init n]
    simp [List.nodup_range']

/-- `class BankAccount` (`03_classes_basics/example.cpp` lines 58-87).
The `double` balance is embedded as `ℚ`. -/
structure BankAccount where
  owner : String
  balance : ℚ
deriving DecidableEq, Repr

/-- `BankAccount::withdraw` (`example.cpp` lines 66-72): succeeds and
subtracts exactly when `amount > 0 && amount <= balance`, otherwise
returns `false` leaving the balance alone. -/
def withdraw (a : BankAccount) (amount : ℚ) : Bool × BankAccount :=
  if 0 < amount ∧ amount ≤ a.balance then
    (true, { a with balance := a.balance - amount })
  else (false, a)

/-- `BankAccount::deposit` (`example.cpp` lines 74-78): adds the amount
when it is positive, otherwise does nothing. -/
def deposit (a : BankAccount) (amount : ℚ) : BankAccount :=
  if 0 < amount then { a with balance := a.balance + amount } else a

/-- An arbitrary interleaving of the two mutating operations. -/
inductive AccountOp where
  | withdrawOp (x : ℚ)
  | depositOp (x : ℚ)
deriving DecidableEq, Repr

def applyOp (a : BankAccount) : AccountOp → BankAccount
  | .withdrawOp x => (withdraw a x).2
  | .depositOp x => deposit a x

def runOps (a : BankAccount) (ops : List AccountOp) : BankAccount :=
  ops.foldl applyOp a

lemma applyOp_nonneg (a : BankAccount) (op : AccountOp)
    (h : 0 ≤ a.balance) : 0 ≤ (applyOp a op).balance := by
  cases op with
  | withdrawOp x =>
    by_cases hc : 0 < x ∧ x ≤ a.balance
    · simp only [applyOp, withdraw, if_pos hc]
      linarith [hc.2]
    · simp [applyOp, withdraw, hc, h]
  | depositOp x =>
    by_cases hc : 0 < x
    · simp [applyOp, deposit, hc]; linarith
    · simp [applyOp, deposit, hc, h]

/-- C9: `withdraw x` returns `true` and decreases the balance by
exactly `x` precisely when `0 < x ≤ balance`, returning `false` with
the account untouched otherwise; `deposit x` adds `x` when `x > 0` and
does nothing otherwise; consequently no sequence of these operations on
an account with a non-negative initial balance ever drives the balance
negative. -/
theorem withdraw_deposit_nonneg (a : BankAccount) (x : ℚ)
    (o : String) (b0 : ℚ) (ops : List AccountOp) (h0 : 0 ≤ b0) :
    (((withdraw a x).1 = true ∧ (withdraw a x).2.balance = a.balance - x) ↔
      (0 < x ∧ x ≤ a.balance)) ∧
    ((withdraw a x).1 = false → (withdraw a x).2 = a) ∧
    (0 < x → (deposit a x).balance = a.balance + x) ∧
    (¬ 0 < x → deposit a x = a) ∧
    0 ≤ (runOps ⟨o, b0⟩ ops).balance := by
  refine ⟨?_, ?_, ?_, ?_, ?_⟩
  · constructor
    · intro ⟨h1, _⟩
      by_cases hc : 0 < x ∧ x ≤ a.balance
      · exact hc
      · simp [withdraw, hc] at h1
    · intro hc
      simp [withdraw, hc]
  · intro h1
    by_cases hc : 0 < x ∧ x ≤ a.balance
    · simp [withdraw, hc] at h1
    · simp [withdraw, hc]
  · intro hc
    simp [deposit, hc]
  · intro hc
    simp [deposit, hc]
  · have key : ∀ (l : List AccountOp) (acc : BankAccount),
        0 ≤ acc.balance → 0 ≤ (l.foldl applyOp acc).balance := by
      intro l
      induction l with
      | nil => intro acc h; exact h
      | cons op rest ih =>
        intro acc h
        exact ih (applyOp acc op) (applyOp_nonneg acc op h)
    exact key ops ⟨o, b0⟩ h0

/-- C9 witness: the theorem applied to a concrete account with balance
100, withdrawal 30, and the operation list
`[withdraw 30, deposit 5, withdraw 200]`. -/
theorem withdraw_deposit_nonneg_witness :
    (0 : ℚ) ≤ 100 ∧
    0 ≤ (runOps ⟨"Alice", 100⟩
      [.withdrawOp 30, .depositOp 5, .withdrawOp 200]).balance :=
  ⟨by norm_num,
   (withdraw_deposit_nonneg ⟨"Alice", 100⟩ 30 "Alice" 100
      [.withdrawOp 30, .depositOp 5, .withdrawOp 200] (by norm_num)).2.2.2.2⟩

/-- `class Student` (`03_classes_basics/solution.cpp` lines 34-62): a
name and a vector of integer grades. -/
structure Student where
  name : String
  grades : List Int
deriving DecidableEq, Repr

/-- `Student::addGrade` (`solution.cpp` lines 42-48): pushes the grade
when `0 <= grade <= 100`, otherwise only prints a message and leaves
the vector alone (console output is outside the model). -/
def addGrade (s : Student) (g : Int) : Student :=
  if 0 ≤ g ∧ g ≤ 100 then { s with grades := s.grades ++ [g] } else s

/-- `Student::getAverage` (`solution.cpp` lines 50-53): `0.0` on an
empty vector, otherwise the accumulated sum divided by the size; the
`double` arithmetic is embedded as exact `ℚ` arithmetic. -/
def getAverage (s : Student) : ℚ :=
  if s.grades = [] then 0
  else (s.grades.map (fun g => (g : ℚ))).sum / s.grades.length

/-- A sequence of `addGrade` calls. -/
def addGrades (s : Student) (gs : List Int) : Student :=
  gs.foldl addGrade s

lemma addGrades_grades (gs : List Int) (s : Student) :
    (addGrades s gs).grades =
      s.grades ++ gs.filter (fun g => decide (0 ≤ g ∧ g ≤ 100)) := by
  induction gs generalizing s with
  | nil => simp [addGrades]
  | cons g rest ih =>
    by_cases hg : 0 ≤ g ∧ g ≤ 100
    · have h2 := ih { s with grades := s.grades ++ [g] }
      simp only [addGrades, List.foldl_cons, List.filter_cons, addGrade,
        if_pos hg] at h2 ⊢
      rw [h2]
      simp [hg]
    · have h2 := ih s
      simp only [addGrades, List.foldl_cons, List.filter_cons, addGrade,
        if_neg hg] at h2 ⊢
      rw [h2]
      simp [hg]

/-- C10: `addGrade g` appends `g` exactly when `0 ≤ g ≤ 100` and
otherwise leaves the student unchanged without failing; after any
sequence of calls the stored grades are exactly the in-range ones in
call order; `getAverage` is `0` with no accepted grades and otherwise
the arithmetic mean of the accepted grades (characterized as: average
times count equals sum). -/
theorem addGrade_average_spec (s : Student) (g : Int) (name : String)
    (gs : List Int) :
    (0 ≤ g ∧ g ≤ 100 → (addGrade s g).grades = s.grades ++ [g]) ∧
    (¬ (0 ≤ g ∧ g ≤ 100) → addGrade s g = s) ∧
    getAverage ⟨name, []⟩ = 0 ∧
    ((addGrades ⟨name, []⟩ gs).grades =
      gs.filter (fun x => decide (0 ≤ x ∧ x ≤ 100))) ∧
    (∀ t : Student, t.grades ≠ [] →
      getAverage t * t.grades.length = (t.grades.map (fun x => (x : ℚ))).sum) := by
  refine ⟨?_, ?_, rfl, ?_, ?_⟩
  · intro hg; simp [addGrade, hg]
  · intro hg; simp [addGrade, hg]
  · simpa using addGrades_grades gs ⟨name, []⟩
  · intro t ht
    have hlen : ((t.grades.length : ℚ)) ≠ 0 := by
      have : t.grades.length ≠ 0 := fun h => ht (List.length_eq_zero.mp h)
      exact_mod_cast this
    simp only [getAverage, if_neg ht]
    rw [div_mul_cancel₀ _ hlen]

/-- C10 witness: an in-range grade is appended; the theorem applied to
the empty student and grade 85. -/
theorem addGrade_average_spec_witness :
    ((0 : Int) ≤ 85 ∧ (85 : Int) ≤ 100) ∧
    (addGrade ⟨"Alice", []⟩ 85).grades = [] ++ [85] :=
  ⟨by decide, (addGrade_average_spec ⟨"Alice", []⟩ 85 "Alice" []).1 (by decide)⟩

end PlayCpp
